import Mathlib

/-!
Verification of the GlyphAtlas PDF text-region geometry pipeline.

This file gives a shallow embedding (over `ℚ` for the numeric parts) of the
pipeline's core functions:

* `config.py` policy constants;
* `src/ocr/word_splitter.py` (`split_line_box_into_words`, `apply_word_splitting`);
* `src/pdf/analyzer.py` (`detect_pdf_type`);
* `src/main_refactored.py` (`_transform_coords_to_pdf`, `_process_embedded_images`,
  the hybrid per-page region combination);
* `src/ocr/engine.py` (`_run_ocr_onnxtr` per-page region collection);
* `src/pdf/generator.py` (the per-region rectangle reduction and the three renderers'
  per-region decisions).

Coordinates and confidences are modelled as rationals: the Python source uses
floats, so exact-equality statements proved here hold up to floating rounding in
the running program.  Fallible Python code (exceptions) is modelled with
`Except` / `Option`.
-/

namespace GlyphAtlas

/-! ## Configuration constants (config.py) -/

/-- config.py: `SPLIT_BY_WORDS = True`. -/
def SPLIT_BY_WORDS : Bool := true

/-- config.py: `WORD_SPACING_THRESHOLD = 0.1`. -/
def WORD_SPACING_THRESHOLD : ℚ := 1/10

/-- config.py: `MIN_CONFIDENCE = 0.5`. -/
def MIN_CONFIDENCE : ℚ := 1/2

/-! ## Data model -/

/-- A 2-D point `[x, y]`. -/
abbrev Point := ℚ × ℚ

/-- A text region dictionary as produced by extraction / OCR:
`{"bbox": ..., "text": ..., "confidence": ..., "source": ..., "is_word": ...}`.
A missing `bbox` key (Python `None`) is modelled by the empty list, and a
missing `is_word` / `source` key by `false` / `"unknown"`, which is how every
reader of these dictionaries defaults them (`region.get('is_word', False)`,
`region.get('source', 'unknown')`). -/
structure Region where
  bbox : List Point
  text : String
  confidence : ℚ
  source : String
  is_word : Bool
deriving Repr, DecidableEq

/-- Python `min` over a nonempty list of numbers (0 is never used: all call
sites guard against the empty list). -/
def listMin : List ℚ → ℚ
  | [] => 0
  | x :: xs => xs.foldl min x

/-- Python `max` over a nonempty list of numbers. -/
def listMax : List ℚ → ℚ
  | [] => 0
  | x :: xs => xs.foldl max x

/-- Worker for `pySplit`: scan the characters, accumulating the current word
in reverse; whitespace ends a word (empty runs emit nothing). -/
def splitWordsAux : List Char → List Char → List String
  | [], cur => if cur.isEmpty then [] else [String.mk cur.reverse]
  | c :: cs, cur =>
      if c.isWhitespace then
        if cur.isEmpty then splitWordsAux cs []
        else String.mk cur.reverse :: splitWordsAux cs []
      else splitWordsAux cs (c :: cur)

/-- Python `str.split()` with no argument: split on runs of whitespace and
drop empty pieces (so every returned word is non-empty). -/
def pySplit (s : String) : List String := splitWordsAux s.data []

/-! ## Word splitter (src/ocr/word_splitter.py) -/

/-- The word-placement loop of `split_line_box_into_words` (lines 51-88):
walk the words left to right from `current_x`, giving word `i` the interval
`[current_x, current_x + char_width * len(word_i)]`, forcing the last word's
right edge to `x1`, and advancing by the word width plus a gap of
`char_width * WORD_SPACING_THRESHOLD`. -/
def wordBoxesAux (char_width x1 y0 y1 confidence : ℚ) (source : String) :
    List String → ℚ → List Region
  | [], _ => []
  | [w], current_x =>
      [⟨[(current_x, y0), (x1, y0), (x1, y1), (current_x, y1)], w, confidence, source, true⟩]
  | w :: w2 :: ws, current_x =>
      let word_x1 := current_x + char_width * (w.length : ℚ)
      ⟨[(current_x, y0), (word_x1, y0), (word_x1, y1), (current_x, y1)], w, confidence,
          source, true⟩ ::
        wordBoxesAux char_width x1 y0 y1 confidence source (w2 :: ws)
          (word_x1 + char_width * WORD_SPACING_THRESHOLD)

/-- `split_line_box_into_words(bbox, text, confidence, source)`
(word_splitter.py lines 7-88). -/
def split_line_box_into_words (bbox : List Point) (text : String)
    (confidence : ℚ) (source : String) : List Region :=
  if text = "" ∨ bbox = [] then []
  else
    let words := pySplit text
    if words.length ≤ 1 then
      [⟨bbox, text, confidence, source, false⟩]
    else
      let xs := bbox.map Prod.fst
      let ys := bbox.map Prod.snd
      let x0 := listMin xs
      let x1 := listMax xs
      let y0 := listMin ys
      let y1 := listMax ys
      let total_width := x1 - x0
      let total_chars : ℕ := (words.map String.length).sum
      let char_width : ℚ := if 0 < total_chars then total_width / (total_chars : ℚ) else 0
      wordBoxesAux char_width x1 y0 y1 confidence source words x0

/-- The per-region step of `apply_word_splitting` (word_splitter.py lines
112-125): regions already marked `is_word` pass through; every other region is
replaced by `split_line_box_into_words` of its fields. -/
def splitRegion (r : Region) : List Region :=
  if r.is_word then [r]
  else split_line_box_into_words r.bbox r.text r.confidence r.source

/-- The per-page region loop of `apply_word_splitting`: concatenate the
`splitRegion` output of each region in order (`word_regions.extend(...)`). -/
def applyPageRegions : List Region → List Region
  | [] => []
  | r :: rs => splitRegion r ++ applyPageRegions rs

/-- One page of the structured results document. -/
structure PageData where
  page_num : ℕ
  text_regions : List Region
  original_line_count : Option ℕ
deriving Repr, DecidableEq

/-- The structured results document (`results_data`). -/
structure ResultsData where
  pages : List PageData
deriving Repr, DecidableEq

/-- `apply_word_splitting(results_data)` (word_splitter.py lines 91-135):
when `SPLIT_BY_WORDS` is off, return the input unchanged; otherwise replace
every page's `text_regions` by its word-split regions and record the original
region count in `original_line_count`. -/
def apply_word_splitting (results : ResultsData) : ResultsData :=
  if SPLIT_BY_WORDS = false then results
  else
    ⟨results.pages.map fun pd =>
      ⟨pd.page_num, applyPageRegions pd.text_regions, some pd.text_regions.length⟩⟩

/-- Left x (`bbox[0][0]`) of a region's stored 4-point box. -/
def regionLeft (r : Region) : ℚ := (r.bbox.getD 0 (0, 0)).1

/-- Right x (`bbox[1][0]`) of a region's stored 4-point box. -/
def regionRight (r : Region) : ℚ := (r.bbox.getD 1 (0, 0)).1

/-- Signed width of a region's stored 4-point box. -/
def regionWidth (r : Region) : ℚ := regionRight r - regionLeft r

/-! ## Document classifier (src/pdf/analyzer.py) -/

/-- The three document types of `detect_pdf_type`. -/
inductive DocType
  | text_only
  | text_and_images
  | scanned
deriving Repr, DecidableEq

/-- The per-page summary computed by `detect_pdf_type`
(`has_text`, `has_images`). -/
structure PageInfo where
  has_text : Bool
  has_images : Bool
deriving Repr, DecidableEq

/-- analyzer.py lines 43-44: `has_text = len(text) > 50`,
`has_images = len(images) > 0`. -/
def mkPageInfo (textLen imageCount : ℕ) : PageInfo :=
  ⟨decide (50 < textLen), decide (0 < imageCount)⟩

/-- The document-type decision of `detect_pdf_type` (analyzer.py lines 70-89). -/
def classifyPages (pages : List PageInfo) : DocType :=
  let pages_with_text := (pages.filter fun p => p.has_text).length
  let pages_with_images := (pages.filter fun p => p.has_images).length
  let total_pages := pages.length
  if pages_with_text = total_pages ∧ pages_with_images = 0 then .text_only
  else if 0 < pages_with_text ∧ 0 < pages_with_images then .text_and_images
  else if 0 < pages_with_images then .scanned
  else .scanned

/-- The value returned by `detect_pdf_type` (the `summary` key is derived data
and is not modelled). -/
structure AnalyzeResult where
  type : DocType
  pages : List PageInfo
deriving Repr, DecidableEq

/-- `detect_pdf_type(pdf_path)` (analyzer.py lines 31-109), abstracted over the
per-page inspections: `some info` models a page whose text/image inspection
succeeded, `none` a page whose inspection raised.  The whole page loop runs
inside one `try`; any raised inspection escapes the loop and the single
`except` returns `{'type': 'scanned', 'pages': []}`, discarding every page. -/
def detect_pdf_type (inspections : List (Option PageInfo)) : AnalyzeResult :=
  if inspections.all Option.isSome then
    let pages := inspections.filterMap id
    ⟨classifyPages pages, pages⟩
  else ⟨.scanned, []⟩

/-- The pages the spec claims `detect_pdf_type` returns: each throwing page
degraded to "no text / no images", the others keeping their inspected values.
(This formalises the claim's words, for comparison with the code.) -/
def specDegradedPages (inspections : List (Option PageInfo)) : List PageInfo :=
  inspections.map fun
    | some p => p
    | none => ⟨false, false⟩

/-! ## Coordinate transform (src/main_refactored.py `_transform_coords_to_pdf`) -/

/-- `_transform_coords_to_pdf(poly, img_bbox_in_pdf, img_width, img_height)`
(main_refactored.py lines 395-413).  Reads corners `[0]` and `[2]` of the
placement polygon (an out-of-range read raises `IndexError`), computes the
per-axis scale factors (a zero image dimension raises `ZeroDivisionError`),
then scales and translates every point in order. -/
def transform_coords_to_pdf (poly : List Point) (img_bbox_in_pdf : List Point)
    (img_width img_height : ℚ) : Except String (List Point) :=
  match img_bbox_in_pdf[0]?, img_bbox_in_pdf[2]? with
  | some (pdf_x0, pdf_y0), some (pdf_x1, pdf_y1) =>
      if img_width = 0 then .error "ZeroDivisionError"
      else if img_height = 0 then .error "ZeroDivisionError"
      else
        let scale_x := (pdf_x1 - pdf_x0) / img_width
        let scale_y := (pdf_y1 - pdf_y0) / img_height
        .ok (poly.map fun pt => (pt.1 * scale_x + pdf_x0, pt.2 * scale_y + pdf_y0))
  | _, _ => .error "IndexError"

/-! ## Embedded-image OCR (src/main_refactored.py `_process_embedded_images`,
OnnxTR branch) -/

/-- One OnnxTR word: recognised value, confidence, normalised geometry
`((x_min, y_min), (x_max, y_max))`. -/
structure OnnxWord where
  value : String
  confidence : ℚ
  geometry : Point × Point
deriving Repr, DecidableEq

/-- One OnnxTR line: its words and its own normalised geometry. -/
structure OnnxLine where
  words : List OnnxWord
  geometry : Point × Point
deriving Repr, DecidableEq

/-- One OnnxTR block. -/
structure OnnxBlock where
  lines : List OnnxLine
deriving Repr, DecidableEq

/-- `" ".flatten(word.value for word in line.words)`. -/
def lineText (l : OnnxLine) : String :=
  String.intercalate " " (l.words.map OnnxWord.value)

/-- `sum(word.confidence for word in line.words) / len(line.words) if line.words else 0`. -/
def lineConfidence (l : OnnxLine) : ℚ :=
  if l.words = [] then 0
  else (l.words.map OnnxWord.confidence).sum / (l.words.length : ℚ)

/-- The pixel-space polygon built from `line.geometry` in
`_process_embedded_images` (main_refactored.py lines 314-320). -/
def linePixelPoly (l : OnnxLine) (img_width img_height : ℚ) : List Point :=
  [(l.geometry.1.1 * img_width, l.geometry.1.2 * img_height),
   (l.geometry.2.1 * img_width, l.geometry.1.2 * img_height),
   (l.geometry.2.1 * img_width, l.geometry.2.2 * img_height),
   (l.geometry.1.1 * img_width, l.geometry.2.2 * img_height)]

/-- One embedded image handed to `_process_embedded_images`: the page it came
from, its placement polygon in the PDF (`img_info['bbox']`, possibly `None`),
its pixel dimensions, and the OCR result for it (blocks of lines). -/
structure EmbImage where
  page_num : ℕ
  bbox : Option (List Point)
  img_width : ℚ
  img_height : ℚ
  blocks : List OnnxBlock
deriving Repr, DecidableEq

/-- Python truthiness of `img_bbox_in_pdf` (`if img_bbox_in_pdf:`):
false for `None` and for the empty list. -/
def bboxTruthy : Option (List Point) → Bool
  | none => false
  | some b => !b.isEmpty

/-- The lines of an image's OCR result in iteration order
(`for block in page_result.blocks: for line in block.lines:`). -/
def imageLines (img : EmbImage) : List OnnxLine :=
  (img.blocks.map OnnxBlock.lines).flatten

/-- The line loop of `_process_embedded_images` (main_refactored.py lines
303-340) for one image.  Lines below `MIN_CONFIDENCE` are skipped; a confident
line's polygon is transformed when the placement bbox is truthy and kept in
image coordinates otherwise.  A raise inside `_transform_coords_to_pdf`
escapes to the per-image `except`, which keeps the regions appended so far and
moves on; the returned flag records that an exception was caught. -/
def processImageLinesAux (img : EmbImage) :
    List OnnxLine → List Region → List Region × Bool
  | [], acc => (acc, false)
  | line :: rest, acc =>
      let confidence := lineConfidence line
      if MIN_CONFIDENCE ≤ confidence then
        let poly := linePixelPoly line img.img_width img.img_height
        if bboxTruthy img.bbox then
          match transform_coords_to_pdf poly (img.bbox.getD []) img.img_width img.img_height with
          | .ok tpoly =>
              processImageLinesAux img rest
                (acc ++ [⟨tpoly, lineText line, confidence, "ocr_from_image", false⟩])
          | .error _ => (acc, true)
        else
          processImageLinesAux img rest
            (acc ++ [⟨poly, lineText line, confidence, "ocr_from_image", false⟩])
      else processImageLinesAux img rest acc

/-- All regions one embedded image contributes, with the caught-exception flag. -/
def processImageLines (img : EmbImage) : List Region × Bool :=
  processImageLinesAux img (imageLines img) []

/-- `_process_embedded_images(embedded_images, ocr)` (main_refactored.py lines
263-391, OnnxTR branch): the per-page dictionary of OCR regions, flattened to
`(page_num, region)` pairs in append order. -/
def process_embedded_images : List EmbImage → List (ℕ × Region)
  | [] => []
  | img :: rest =>
      ((processImageLines img).1.map fun r => (img.page_num, r)) ++
        process_embedded_images rest

/-- `ocr_results_by_page[page_num]`: the regions the embedded images contribute
to one page, in append order. -/
def embeddedRegionsForPage (imgs : List EmbImage) (page_num : ℕ) : List Region :=
  (process_embedded_images imgs).filterMap fun pr =>
    if pr.1 = page_num then some pr.2 else none

/-! ## Native text extraction (src/pdf/text_extractor.py, word branch) -/

/-- One word tuple from `page.get_text("words")`:
`(x0, y0, x1, y1, word_text, ...)`. -/
structure NativeWord where
  x0 : ℚ
  y0 : ℚ
  x1 : ℚ
  y1 : ℚ
  text : String
deriving Repr, DecidableEq

/-- The per-word region construction of `extract_native_text_with_boxes`
(text_extractor.py lines 40-61, `SPLIT_BY_WORDS` branch): confidence is the
constant 1.0 and the region is marked `is_word`. -/
def extract_native_words (ws : List NativeWord) : List Region :=
  ws.map fun w =>
    ⟨[(w.x0, w.y0), (w.x1, w.y0), (w.x1, w.y1), (w.x0, w.y1)], w.text, 1, "native", true⟩

/-- The hybrid per-page combination (main_refactored.py lines 245-259):
`combined_regions = native regions ++ embedded-image OCR regions`. -/
def hybridPageRegions (native : List NativeWord) (imgs : List EmbImage)
    (page_num : ℕ) : List Region :=
  extract_native_words native ++ embeddedRegionsForPage imgs page_num

/-! ## Full-page OCR (src/ocr/engine.py `_run_ocr_onnxtr`) -/

/-- The per-word region construction of `_run_ocr_onnxtr` (engine.py lines
455-491): normalised geometry is scaled to pixels, divided by the upscale
factor, then by the render scale; words below `MIN_CONFIDENCE` are dropped.
The produced dictionary carries no `source` / `is_word` keys, which readers
default to `"unknown"` / `False`. -/
def onnxWordRegion (w h upscale_factor scale : ℚ) (word : OnnxWord) : Option Region :=
  let x0 := word.geometry.1.1 * w / upscale_factor / scale
  let y0 := word.geometry.1.2 * h / upscale_factor / scale
  let x1 := word.geometry.2.1 * w / upscale_factor / scale
  let y1 := word.geometry.2.2 * h / upscale_factor / scale
  if MIN_CONFIDENCE ≤ word.confidence then
    some ⟨[(x0, y0), (x1, y0), (x1, y1), (x0, y1)], word.value, word.confidence,
      "unknown", false⟩
  else none

/-- The `text_regions` list `_run_ocr_onnxtr` builds for one page (engine.py
lines 446-491): iterate blocks → lines → words, keeping confident words. -/
def run_ocr_onnxtr_page (blocks : List OnnxBlock) (w h upscale_factor scale : ℚ) :
    List Region :=
  ((blocks.map fun b =>
      (b.lines.map fun l =>
        l.words.filterMap (onnxWordRegion w h upscale_factor scale)).flatten)).flatten

/-! ## PDF synthesis (src/pdf/generator.py) -/

/-- An axis-aligned rectangle (`fitz.Rect(x0, y0, x1, y1)`). -/
structure RectQ where
  x0 : ℚ
  y0 : ℚ
  x1 : ℚ
  y1 : ℚ
deriving Repr, DecidableEq

/-- The rectangle reduction shared by all three renderers (generator.py lines
46-70, 153-177, 255-277): take min/max of the polygon's coordinates and reject
the rectangle unless `x0 < x1` and `y0 < y1`.  Over `ℚ` every coordinate is
finite, so the source's `None` / infinity filters keep every point, and
`fitz.Rect.is_infinite` is always false while `is_empty` coincides with the
explicit `x0 >= x1 or y0 >= y1` test. -/
def rect_of_bbox (bbox : List Point) : Option RectQ :=
  if bbox.isEmpty then none
  else
    let xs := bbox.map Prod.fst
    let ys := bbox.map Prod.snd
    let x0 := listMin xs
    let y0 := listMin ys
    let x1 := listMax xs
    let y1 := listMax ys
    if x0 ≥ x1 ∨ y0 ≥ y1 then none else some ⟨x0, y0, x1, y1⟩

/-- The stroke color chosen by `create_annotated_pdf` (generator.py lines 72-78). -/
def colorOf (source : String) : ℚ × ℚ × ℚ :=
  if source = "native" then (0, 1, 0)
  else if source = "ocr_from_image" then (1, 1/2, 0)
  else (1, 0, 0)

/-- A rectangle annotation emitted by the annotated-overlay renderer. -/
structure AnnotAction where
  rect : RectQ
  color : ℚ × ℚ × ℚ
deriving Repr, DecidableEq

/-- A text-box insertion emitted by the searchable / editable renderers. -/
structure TextInsertAction where
  rect : RectQ
  text : String
  fontsize : ℚ
deriving Repr, DecidableEq

/-- Per-region decision of `create_annotated_pdf` (generator.py lines 34-91):
skip on missing/non-4-point bbox or failed rectangle reduction, otherwise
annotate with the source's color. -/
def annotated_render_region (r : Region) : Option AnnotAction :=
  if r.bbox = [] ∨ r.bbox.length ≠ 4 then none
  else
    match rect_of_bbox r.bbox with
    | none => none
    | some rect => some ⟨rect, colorOf r.source⟩

/-- Per-region decision of `create_searchable_pdf` (generator.py lines
144-192): additionally requires non-empty text, and inserts the text at
fontsize `max(1, height * 0.8)` where `height = y1 - y0`. -/
def searchable_render_region (r : Region) : Option TextInsertAction :=
  if r.bbox = [] ∨ r.bbox.length ≠ 4 ∨ r.text = "" then none
  else
    match rect_of_bbox r.bbox with
    | none => none
    | some rect => some ⟨rect, r.text, max 1 ((rect.y1 - rect.y0) * (4/5))⟩

/-- Per-region decision of `create_editable_pdf` (generator.py lines 246-292):
same validity rule as the searchable renderer, first insertion at fontsize
`max(6, height * 0.7)`.  (The overflow retry at a smaller fontsize depends on
the PDF writer's return code, an external effect, and is not modelled.) -/
def editable_render_region (r : Region) : Option TextInsertAction :=
  if r.bbox = [] ∨ r.bbox.length ≠ 4 ∨ r.text = "" then none
  else
    match rect_of_bbox r.bbox with
    | none => none
    | some rect => some ⟨rect, r.text, max 6 ((rect.y1 - rect.y0) * (7/10))⟩

/-- The annotations one page's region list produces (regions failing
validation are skipped, the rest of the page continues). -/
def create_annotated_page (regions : List Region) : List AnnotAction :=
  regions.filterMap annotated_render_region

/-- The text insertions of the searchable renderer for one page. -/
def create_searchable_page (regions : List Region) : List TextInsertAction :=
  regions.filterMap searchable_render_region

/-- The text insertions of the editable renderer for one page. -/
def create_editable_page (regions : List Region) : List TextInsertAction :=
  regions.filterMap editable_render_region

/-! ## Helper lemmas -/

/-- A zero-width reduced rectangle is rejected by the renderers' reduction. -/
theorem rect_of_bbox_of_min_eq_max (bbox : List Point)
    (hzw : listMin (bbox.map Prod.fst) = listMax (bbox.map Prod.fst)) :
    rect_of_bbox bbox = none := by
  unfold rect_of_bbox
  split
  · rfl
  · rw [if_pos (Or.inl (le_of_eq hzw.symm))]

theorem annotated_render_none_of_rect_none (r : Region)
    (hrect : rect_of_bbox r.bbox = none) : annotated_render_region r = none := by
  unfold annotated_render_region
  split
  · rfl
  · rw [hrect]

theorem searchable_render_none_of_rect_none (r : Region)
    (hrect : rect_of_bbox r.bbox = none) : searchable_render_region r = none := by
  unfold searchable_render_region
  split
  · rfl
  · rw [hrect]

theorem editable_render_none_of_rect_none (r : Region)
    (hrect : rect_of_bbox r.bbox = none) : editable_render_region r = none := by
  unfold editable_render_region
  split
  · rfl
  · rw [hrect]

/-! ## Claim theorems -/

/-- Claim C1: for positive image dimensions `w`, `h` and a placement rectangle
with corners `(px0, py0)`–`(px1, py1)`, the image-to-page remapping uses the
scale factors `(px1 - px0) / w`, `(py1 - py0) / h`, maps every point
`(x, y)` to `(x * scale_x + px0, y * scale_y + py0)` preserving point order,
and sends the four image corners exactly to the placement rectangle's four
corners. -/
theorem C1_remap_image_to_page (w h px0 py0 px1 py1 : ℚ) (hw : 0 < w) (hh : 0 < h) :
    (∀ poly : List Point,
      transform_coords_to_pdf poly [(px0, py0), (px1, py0), (px1, py1), (px0, py1)] w h
        = .ok (poly.map fun pt =>
            (pt.1 * ((px1 - px0) / w) + px0, pt.2 * ((py1 - py0) / h) + py0))) ∧
    transform_coords_to_pdf [(0, 0), (w, 0), (w, h), (0, h)]
        [(px0, py0), (px1, py0), (px1, py1), (px0, py1)] w h
      = .ok [(px0, py0), (px1, py0), (px1, py1), (px0, py1)] := by
  have hw' : w ≠ 0 := ne_of_gt hw
  have hh' : h ≠ 0 := ne_of_gt hh
  constructor
  · intro poly
    simp [transform_coords_to_pdf, hw', hh']
  · simp [transform_coords_to_pdf, hw', hh']
    constructor
    · field_simp
    · field_simp

/-- Witness for C1 at `w = 2`, `h = 3`, placement rectangle `(1,1)`–`(5,7)`. -/
theorem C1_remap_image_to_page_witness :
    transform_coords_to_pdf [(0, 0), (2, 0), (2, 3), (0, 3)]
        [(1, 1), (5, 1), (5, 7), (1, 7)] 2 3
      = .ok [(1, 1), (5, 1), (5, 7), (1, 7)] :=
  (C1_remap_image_to_page 2 3 1 1 5 7 (by norm_num) (by norm_num)).2

/-- Claim C6: a region whose reduced axis-aligned bounding rectangle has
`x0 = x1` (zero width) is rendered by none of the three renderers; it is
skipped and the rest of the page's regions render as if it were absent. -/
theorem C6_zero_width_region_skipped (r : Region) (l1 l2 : List Region)
    (hzw : listMin (r.bbox.map Prod.fst) = listMax (r.bbox.map Prod.fst)) :
    annotated_render_region r = none ∧
    searchable_render_region r = none ∧
    editable_render_region r = none ∧
    create_annotated_page (l1 ++ r :: l2) = create_annotated_page (l1 ++ l2) ∧
    create_searchable_page (l1 ++ r :: l2) = create_searchable_page (l1 ++ l2) ∧
    create_editable_page (l1 ++ r :: l2) = create_editable_page (l1 ++ l2) := by
  have hrect := rect_of_bbox_of_min_eq_max r.bbox hzw
  have h1 := annotated_render_none_of_rect_none r hrect
  have h2 := searchable_render_none_of_rect_none r hrect
  have h3 := editable_render_none_of_rect_none r hrect
  refine ⟨h1, h2, h3, ?_, ?_, ?_⟩
  · simp [create_annotated_page, List.filterMap_append, List.filterMap_cons, h1]
  · simp [create_searchable_page, List.filterMap_append, List.filterMap_cons, h2]
  · simp [create_editable_page, List.filterMap_append, List.filterMap_cons, h3]

/-- Witness for C6 at a degenerate vertical-segment bbox. -/
theorem C6_zero_width_region_skipped_witness :
    annotated_render_region ⟨[(1, 1), (1, 1), (1, 2), (1, 2)], "hi", 1, "native", false⟩
        = none ∧
    searchable_render_region ⟨[(1, 1), (1, 1), (1, 2), (1, 2)], "hi", 1, "native", false⟩
        = none ∧
    editable_render_region ⟨[(1, 1), (1, 1), (1, 2), (1, 2)], "hi", 1, "native", false⟩
        = none ∧
    create_annotated_page ([] ++ ⟨[(1, 1), (1, 1), (1, 2), (1, 2)], "hi", 1, "native", false⟩ :: [])
        = create_annotated_page ([] ++ []) ∧
    create_searchable_page ([] ++ ⟨[(1, 1), (1, 1), (1, 2), (1, 2)], "hi", 1, "native", false⟩ :: [])
        = create_searchable_page ([] ++ []) ∧
    create_editable_page ([] ++ ⟨[(1, 1), (1, 1), (1, 2), (1, 2)], "hi", 1, "native", false⟩ :: [])
        = create_editable_page ([] ++ []) :=
  C6_zero_width_region_skipped ⟨[(1, 1), (1, 1), (1, 2), (1, 2)], "hi", 1, "native", false⟩
    [] [] (by decide)

/-- Claim C8: a region with non-empty text and a valid (4-point,
non-degenerate) bounding rectangle of height `h = y1 - y0` is inserted by the
searchable renderer at fontsize exactly `max 1 (h * 0.8)`. -/
theorem C8_searchable_fontsize (r : Region)
    (hlen : r.bbox.length = 4) (htext : r.text ≠ "")
    (hx : listMin (r.bbox.map Prod.fst) < listMax (r.bbox.map Prod.fst))
    (hy : listMin (r.bbox.map Prod.snd) < listMax (r.bbox.map Prod.snd)) :
    (searchable_render_region r).map TextInsertAction.fontsize
      = some (max 1 ((listMax (r.bbox.map Prod.snd) - listMin (r.bbox.map Prod.snd))
          * (4/5))) := by
  have hne : r.bbox ≠ [] := by
    intro hcon
    rw [hcon] at hlen
    simp at hlen
  have hrect : rect_of_bbox r.bbox
      = some ⟨listMin (r.bbox.map Prod.fst), listMin (r.bbox.map Prod.snd),
              listMax (r.bbox.map Prod.fst), listMax (r.bbox.map Prod.snd)⟩ := by
    unfold rect_of_bbox
    rw [if_neg (by simp [hne]), if_neg (by push_neg; exact ⟨hx, hy⟩)]
  unfold searchable_render_region
  rw [if_neg (by simp [hne, hlen, htext]), hrect]
  simp

/-- Witness for C8 at a concrete 10×10 region. -/
theorem C8_searchable_fontsize_witness :
    (searchable_render_region
        ⟨[(0, 0), (10, 0), (10, 10), (0, 10)], "hola", 1, "native", false⟩).map
      TextInsertAction.fontsize
      = some (max 1
          ((listMax (([(0, 0), (10, 0), (10, 10), (0, 10)] : List Point).map Prod.snd)
            - listMin (([(0, 0), (10, 0), (10, 10), (0, 10)] : List Point).map Prod.snd))
            * (4/5))) :=
  C8_searchable_fontsize ⟨[(0, 0), (10, 0), (10, 10), (0, 10)], "hola", 1, "native", false⟩
    (by decide) (by decide) (by decide) (by decide)

/-- Claim C3: on a non-empty page-summary list the classifier returns
`text_only` iff every page has text and none has images; otherwise
`text_and_images` iff some page has text and some page has an image; in every
other case it returns `scanned`. -/
theorem C3_classifier (pages : List PageInfo) (hne : pages ≠ []) :
    (classifyPages pages = .text_only ↔
      ((∀ p ∈ pages, p.has_text = true) ∧ (∀ p ∈ pages, p.has_images = false))) ∧
    (¬((∀ p ∈ pages, p.has_text = true) ∧ (∀ p ∈ pages, p.has_images = false)) →
      (classifyPages pages = .text_and_images ↔
        ((∃ p ∈ pages, p.has_text = true) ∧ (∃ p ∈ pages, p.has_images = true)))) ∧
    (¬((∀ p ∈ pages, p.has_text = true) ∧ (∀ p ∈ pages, p.has_images = false)) →
      ¬((∃ p ∈ pages, p.has_text = true) ∧ (∃ p ∈ pages, p.has_images = true)) →
      classifyPages pages = .scanned) := by
  have htext_all : ((pages.filter fun p => p.has_text).length = pages.length)
      ↔ ∀ p ∈ pages, p.has_text = true := List.filter_length_eq_length
  have himg_none : ((pages.filter fun p => p.has_images).length = 0)
      ↔ ∀ p ∈ pages, p.has_images = false := by
    rw [List.length_eq_zero, List.filter_eq_nil_iff]
    simp
  have htext_ex : (0 < (pages.filter fun p => p.has_text).length)
      ↔ ∃ p ∈ pages, p.has_text = true := by
    rw [List.length_pos, Ne, List.filter_eq_nil_iff]
    push_neg
    simp
  have himg_ex : (0 < (pages.filter fun p => p.has_images).length)
      ↔ ∃ p ∈ pages, p.has_images = true := by
    rw [List.length_pos, Ne, List.filter_eq_nil_iff]
    push_neg
    simp
  unfold classifyPages
  by_cases h1 : ((pages.filter fun p => p.has_text).length = pages.length
      ∧ (pages.filter fun p => p.has_images).length = 0)
  · rw [if_pos h1]
    have hAll : (∀ p ∈ pages, p.has_text = true) ∧ (∀ p ∈ pages, p.has_images = false) :=
      ⟨htext_all.mp h1.1, himg_none.mp h1.2⟩
    exact ⟨iff_of_true rfl hAll, fun hcon => absurd hAll hcon, fun hcon _ => absurd hAll hcon⟩
  · rw [if_neg h1]
    have hnotAll : ¬((∀ p ∈ pages, p.has_text = true) ∧ (∀ p ∈ pages, p.has_images = false)) :=
      fun hcon => h1 ⟨htext_all.mpr hcon.1, himg_none.mpr hcon.2⟩
    by_cases h2 : (0 < (pages.filter fun p => p.has_text).length
        ∧ 0 < (pages.filter fun p => p.has_images).length)
    · rw [if_pos h2]
      have hEx : (∃ p ∈ pages, p.has_text = true) ∧ (∃ p ∈ pages, p.has_images = true) :=
        ⟨htext_ex.mp h2.1, himg_ex.mp h2.2⟩
      exact ⟨iff_of_false (by decide) hnotAll, fun _ => iff_of_true rfl hEx,
        fun _ hcon => absurd hEx hcon⟩
    · rw [if_neg h2]
      have hnotEx : ¬((∃ p ∈ pages, p.has_text = true) ∧ (∃ p ∈ pages, p.has_images = true)) :=
        fun hcon => h2 ⟨htext_ex.mpr hcon.1, himg_ex.mpr hcon.2⟩
      rw [show (if 0 < (pages.filter fun p => p.has_images).length then DocType.scanned
          else DocType.scanned) = DocType.scanned from by split <;> rfl]
      exact ⟨iff_of_false (by decide) hnotAll, fun _ => iff_of_false (by decide) hnotEx,
        fun _ _ => rfl⟩

/-- Witness for C3 on a concrete 3-page all-text document. -/
theorem C3_classifier_witness :
    classifyPages [⟨true, false⟩, ⟨true, false⟩, ⟨true, false⟩] = .text_only :=
  (C3_classifier [⟨true, false⟩, ⟨true, false⟩, ⟨true, false⟩] (by decide)).1.mpr
    (by decide)

/-- Claim C5, counterexample: on a document whose second page's inspection
throws, the claim predicts the first page keeps its inspected values and the
second degrades to "no text / no images"; the code instead returns an empty
pages list. -/
theorem C5_counterexample :
    ¬ ((detect_pdf_type [some ⟨true, false⟩, none]).pages
        = specDegradedPages [some ⟨true, false⟩, none]) := by decide

/-- Claim C5, amended: classification never fails, but when any page's
inspection throws, the single `try/except` around the whole page loop returns
type `scanned` with an *empty* pages list, discarding every page's inspected
values; only when no inspection throws are the inspected values kept. -/
theorem C5_throw_yields_empty_pages (inspections : List (Option PageInfo)) :
    (none ∈ inspections → detect_pdf_type inspections = ⟨.scanned, []⟩) ∧
    ((∀ i ∈ inspections, i.isSome = true) →
      detect_pdf_type inspections
        = ⟨classifyPages (inspections.filterMap id), inspections.filterMap id⟩) := by
  constructor
  · intro hmem
    unfold detect_pdf_type
    rw [if_neg]
    simp only [List.all_eq_true]
    push_neg
    exact ⟨none, hmem, by simp⟩
  · intro hall
    unfold detect_pdf_type
    rw [if_pos (List.all_eq_true.mpr hall)]

/-- Witness for C5 (amended) at a concrete throwing inspection list. -/
theorem C5_throw_yields_empty_pages_witness :
    detect_pdf_type [some ⟨true, false⟩, none] = ⟨.scanned, []⟩ :=
  (C5_throw_yields_empty_pages [some ⟨true, false⟩, none]).1 (by decide)

/-! ## Confidence-filter and embedded-image lemmas -/

theorem onnxWordRegion_confidence (w h upscale_factor scale : ℚ) (word : OnnxWord)
    (r : Region) (hr : onnxWordRegion w h upscale_factor scale word = some r) :
    MIN_CONFIDENCE ≤ r.confidence := by
  unfold onnxWordRegion at hr
  split at hr
  · cases hr
    assumption
  · cases hr

theorem mem_run_ocr_onnxtr_confidence (blocks : List OnnxBlock)
    (w h upscale_factor scale : ℚ) (r : Region)
    (hr : r ∈ run_ocr_onnxtr_page blocks w h upscale_factor scale) :
    MIN_CONFIDENCE ≤ r.confidence := by
  unfold run_ocr_onnxtr_page at hr
  obtain ⟨inner, hinner, hr⟩ := List.mem_flatten.mp hr
  obtain ⟨b, hb, rfl⟩ := List.mem_map.mp hinner
  obtain ⟨inner2, hinner2, hr⟩ := List.mem_flatten.mp hr
  obtain ⟨l, hl, rfl⟩ := List.mem_map.mp hinner2
  obtain ⟨word, hw, hsome⟩ := List.mem_filterMap.mp hr
  exact onnxWordRegion_confidence _ _ _ _ _ _ hsome

theorem mem_extract_native_confidence (ws : List NativeWord) (r : Region)
    (hr : r ∈ extract_native_words ws) : r.confidence = 1 := by
  simp only [extract_native_words, List.mem_map] at hr
  obtain ⟨w, hw, rfl⟩ := hr
  rfl

theorem processImageLinesAux_confidence (img : EmbImage) (ls : List OnnxLine) :
    ∀ acc, (∀ r ∈ acc, MIN_CONFIDENCE ≤ r.confidence) →
    ∀ r ∈ (processImageLinesAux img ls acc).1, MIN_CONFIDENCE ≤ r.confidence := by
  induction ls with
  | nil =>
    intro acc hacc r hr
    exact hacc r hr
  | cons line rest ih =>
    intro acc hacc r hr
    simp only [processImageLinesAux] at hr
    by_cases hc : MIN_CONFIDENCE ≤ lineConfidence line
    · rw [if_pos hc] at hr
      by_cases hb : bboxTruthy img.bbox = true
      · rw [if_pos hb] at hr
        cases htr : transform_coords_to_pdf (linePixelPoly line img.img_width img.img_height)
            (img.bbox.getD []) img.img_width img.img_height with
        | ok tpoly =>
          rw [htr] at hr
          refine ih _ ?_ r hr
          intro s hs
          rcases List.mem_append.mp hs with hs | hs
          · exact hacc s hs
          · rw [List.mem_singleton.mp hs]
            exact hc
        | error e =>
          rw [htr] at hr
          exact hacc r hr
      · rw [if_neg hb] at hr
        refine ih _ ?_ r hr
        intro s hs
        rcases List.mem_append.mp hs with hs | hs
        · exact hacc s hs
        · rw [List.mem_singleton.mp hs]
          exact hc
    · rw [if_neg hc] at hr
      exact ih acc hacc r hr

theorem mem_process_embedded_confidence (imgs : List EmbImage) (page_num : ℕ) (r : Region)
    (hr : (page_num, r) ∈ process_embedded_images imgs) :
    MIN_CONFIDENCE ≤ r.confidence := by
  induction imgs with
  | nil => cases hr
  | cons img rest ih =>
    simp only [process_embedded_images] at hr
    rcases List.mem_append.mp hr with hr | hr
    · obtain ⟨s, hs, heq⟩ := List.mem_map.mp hr
      injection heq with h1 h2
      have hsc : MIN_CONFIDENCE ≤ s.confidence :=
        processImageLinesAux_confidence img (imageLines img) [] (by intro t ht; cases ht)
          s hs
      exact h2 ▸ hsc
    · exact ih hr

/-- Claim C4: a region whose confidence is below `MIN_CONFIDENCE` never
appears in the aggregated per-page region list, whatever its source: the
full-page OnnxTR OCR list, and the hybrid list (native extraction followed by
embedded-image OCR), contain only regions with confidence at least
`MIN_CONFIDENCE`; native regions carry the constant confidence 1. -/
theorem C4_min_confidence_filter (blocks : List OnnxBlock)
    (w h upscale_factor scale : ℚ) (native : List NativeWord)
    (imgs : List EmbImage) (page_num : ℕ) (r : Region)
    (hmem : r ∈ run_ocr_onnxtr_page blocks w h upscale_factor scale
        ∨ r ∈ hybridPageRegions native imgs page_num) :
    MIN_CONFIDENCE ≤ r.confidence := by
  rcases hmem with hmem | hmem
  · exact mem_run_ocr_onnxtr_confidence blocks w h upscale_factor scale r hmem
  · unfold hybridPageRegions at hmem
    rcases List.mem_append.mp hmem with hmem | hmem
    · rw [mem_extract_native_confidence native r hmem]
      norm_num [MIN_CONFIDENCE]
    · obtain ⟨pr, hpr, hif⟩ := List.mem_filterMap.mp hmem
      by_cases hpn : pr.1 = page_num
      · rw [if_pos hpn] at hif
        cases hif
        have : (pr.1, pr.2) ∈ process_embedded_images imgs := hpr
        exact mem_process_embedded_confidence imgs pr.1 pr.2 this
      · rw [if_neg hpn] at hif
        cases hif

/-- Witness for C4 at a concrete hybrid page with one native word. -/
theorem C4_min_confidence_filter_witness :
    MIN_CONFIDENCE
      ≤ (Region.mk [(0, 0), (1, 0), (1, 1), (0, 1)] "hola" 1 "native" true).confidence :=
  C4_min_confidence_filter [] 1 1 1 1 [⟨0, 0, 1, 1, "hola"⟩] [] 1 _
    (Or.inr (by simp [hybridPageRegions, extract_native_words, embeddedRegionsForPage,
      process_embedded_images]))

theorem transform_ne_ok_of_zero_dim (poly b : List Point) (w h : ℚ)
    (hz : w = 0 ∨ h = 0) (t : List Point) :
    transform_coords_to_pdf poly b w h ≠ .ok t := by
  unfold transform_coords_to_pdf
  cases h0 : b[0]? with
  | none => simp [h0]
  | some p0 =>
    cases h2 : b[2]? with
    | none => simp [h0, h2]
    | some p2 =>
      obtain ⟨px0, py0⟩ := p0
      obtain ⟨px1, py1⟩ := p2
      simp only [h0, h2]
      rcases hz with hz | hz
      · simp [hz]
      · by_cases hw : w = 0 <;> simp [hw, hz]

theorem processImageLinesAux_zero_dim (img : EmbImage)
    (hz : img.img_width = 0 ∨ img.img_height = 0) (hb : bboxTruthy img.bbox = true) :
    ∀ (ls : List OnnxLine) (acc : List Region),
      (∃ l ∈ ls, MIN_CONFIDENCE ≤ lineConfidence l) →
      processImageLinesAux img ls acc = (acc, true) := by
  intro ls
  induction ls with
  | nil =>
    intro acc hex
    obtain ⟨l, hl, _⟩ := hex
    cases hl
  | cons line rest ih =>
    intro acc hex
    simp only [processImageLinesAux]
    by_cases hc : MIN_CONFIDENCE ≤ lineConfidence line
    · rw [if_pos hc, if_pos hb]
      cases htr : transform_coords_to_pdf (linePixelPoly line img.img_width img.img_height)
          (img.bbox.getD []) img.img_width img.img_height with
      | ok tpoly => exact absurd htr (transform_ne_ok_of_zero_dim _ _ _ _ hz tpoly)
      | error e => rfl
    · rw [if_neg hc]
      obtain ⟨l, hl, hconf⟩ := hex
      rcases List.mem_cons.mp hl with rfl | hl
      · exact absurd hconf hc
      · exact ih acc ⟨l, hl, hconf⟩

theorem processImageLinesAux_none_bbox (img : EmbImage) (hb : img.bbox = none) :
    ∀ (ls : List OnnxLine) (acc : List Region),
      processImageLinesAux img ls acc
        = (acc ++ ls.filterMap (fun l =>
            if MIN_CONFIDENCE ≤ lineConfidence l then
              some ⟨linePixelPoly l img.img_width img.img_height, lineText l,
                    lineConfidence l, "ocr_from_image", false⟩
            else none), false) := by
  intro ls
  have hbf : bboxTruthy img.bbox = false := by rw [hb]; rfl
  induction ls with
  | nil =>
    intro acc
    simp [processImageLinesAux]
  | cons line rest ih =>
    intro acc
    simp only [processImageLinesAux]
    by_cases hc : MIN_CONFIDENCE ≤ lineConfidence line
    · rw [if_pos hc, hbf]
      simp only [Bool.false_eq_true, if_false, ih, List.filterMap_cons, if_pos hc,
        List.append_assoc, List.singleton_append]
    · rw [if_neg hc, ih, List.filterMap_cons, if_neg hc]

/-- Claim C7, counterexample: an embedded image whose placement rectangle is
absent (`None`) does *not* have its regions skipped — the confident line is
kept with untransformed image coordinates; and for an image of width 0 with a
placement rectangle present, the transform *is* evaluated and its division by
zero raises, caught by the per-image handler (flag `true`). -/
theorem C7_counterexample :
    process_embedded_images
        [⟨1, none, 5, 5, [⟨[⟨[⟨"hola", 1, ((0, 0), (1, 1))⟩], ((0, 0), (1, 1))⟩]⟩]⟩] ≠ [] ∧
    processImageLines
        ⟨1, some [(0, 0), (10, 0), (10, 10), (0, 10)], 0, 5,
          [⟨[⟨[⟨"hola", 1, ((0, 0), (1, 1))⟩], ((0, 0), (1, 1))⟩]⟩]⟩ = ([], true) := by
  have hc : MIN_CONFIDENCE
      ≤ lineConfidence ⟨[⟨"hola", (1 : ℚ), ((0, 0), (1, 1))⟩], ((0, 0), (1, 1))⟩ := by
    norm_num [lineConfidence, MIN_CONFIDENCE]
  constructor
  · have him : imageLines ⟨1, none, 5, 5,
        [⟨[⟨[⟨"hola", 1, ((0, 0), (1, 1))⟩], ((0, 0), (1, 1))⟩]⟩]⟩
        = [⟨[⟨"hola", 1, ((0, 0), (1, 1))⟩], ((0, 0), (1, 1))⟩] := rfl
    have h2 := processImageLinesAux_none_bbox
        ⟨1, none, 5, 5, [⟨[⟨[⟨"hola", 1, ((0, 0), (1, 1))⟩], ((0, 0), (1, 1))⟩]⟩]⟩ rfl
        [⟨[⟨"hola", 1, ((0, 0), (1, 1))⟩], ((0, 0), (1, 1))⟩] []
    rw [List.filterMap_cons, if_pos hc, List.filterMap_nil] at h2
    intro hcon
    simp only [process_embedded_images] at hcon
    rw [processImageLines, him, h2] at hcon
    simp at hcon
  · exact processImageLinesAux_zero_dim _ (Or.inl rfl) (by decide) _ []
      ⟨⟨[⟨"hola", 1, ((0, 0), (1, 1))⟩], ((0, 0), (1, 1))⟩, by simp [imageLines], hc⟩

/-- Claim C7, amended: if the image width or height is zero while the
placement rectangle is present and some line is confident, the transform's
division by zero raises and the per-image handler drops all of that image's
regions and continues with the remaining images; if the placement rectangle is
absent, the transform is never evaluated and each confident region is kept
with untransformed image coordinates rather than skipped. -/
theorem C7_degenerate_image_inputs (img : EmbImage) (rest : List EmbImage) :
    ((img.img_width = 0 ∨ img.img_height = 0) → bboxTruthy img.bbox = true →
      (∃ l ∈ imageLines img, MIN_CONFIDENCE ≤ lineConfidence l) →
      processImageLines img = ([], true) ∧
      process_embedded_images (img :: rest) = process_embedded_images rest) ∧
    (img.bbox = none →
      processImageLines img
        = ((imageLines img).filterMap (fun l =>
            if MIN_CONFIDENCE ≤ lineConfidence l then
              some ⟨linePixelPoly l img.img_width img.img_height, lineText l,
                    lineConfidence l, "ocr_from_image", false⟩
            else none), false)) := by
  constructor
  · intro hz hb hex
    have h1 : processImageLines img = ([], true) :=
      processImageLinesAux_zero_dim img hz hb (imageLines img) [] hex
    refine ⟨h1, ?_⟩
    simp [process_embedded_images, h1]
  · intro hb
    simpa using processImageLinesAux_none_bbox img hb (imageLines img) []

/-- Witness for C7 (amended) at a concrete zero-width image followed by a
second image. -/
theorem C7_degenerate_image_inputs_witness :
    process_embedded_images
        [⟨1, some [(0, 0), (10, 0), (10, 10), (0, 10)], 0, 5,
            [⟨[⟨[⟨"hola", 1, ((0, 0), (1, 1))⟩], ((0, 0), (1, 1))⟩]⟩]⟩,
         ⟨2, none, 5, 5, []⟩]
      = process_embedded_images [⟨2, none, 5, 5, []⟩] :=
  ((C7_degenerate_image_inputs
      ⟨1, some [(0, 0), (10, 0), (10, 10), (0, 10)], 0, 5,
        [⟨[⟨[⟨"hola", 1, ((0, 0), (1, 1))⟩], ((0, 0), (1, 1))⟩]⟩]⟩
      [⟨2, none, 5, 5, []⟩]).1 (Or.inl rfl) (by decide)
    ⟨⟨[⟨"hola", 1, ((0, 0), (1, 1))⟩], ((0, 0), (1, 1))⟩, by simp [imageLines],
      by norm_num [lineConfidence, MIN_CONFIDENCE]⟩).2

/-! ## Word-splitter lemmas -/

theorem mem_splitWordsAux_length_pos :
    ∀ (cs cur : List Char) (w : String), w ∈ splitWordsAux cs cur → 0 < w.length := by
  intro cs
  induction cs with
  | nil =>
    intro cur w hw
    simp only [splitWordsAux] at hw
    split at hw
    · cases hw
    · rw [List.mem_singleton.mp hw]
      have : ¬cur.isEmpty = true := by assumption
      have hcur : cur ≠ [] := by
        intro hcon
        exact this (by simp [hcon])
      simpa [String.length] using List.length_pos.mpr (mt List.reverse_eq_nil_iff.mp hcur)
  | cons c cs ih =>
    intro cur w hw
    simp only [splitWordsAux] at hw
    split at hw
    · split at hw
      · exact ih [] w hw
      · rcases List.mem_cons.mp hw with rfl | hw
        · have : ¬cur.isEmpty = true := by assumption
          have hcur : cur ≠ [] := by
            intro hcon
            exact this (by simp [hcon])
          simpa [String.length] using List.length_pos.mpr (mt List.reverse_eq_nil_iff.mp hcur)
        · exact ih [] w hw
    · exact ih (c :: cur) w hw

theorem pySplit_total_chars_pos (text : String) (hn : 2 ≤ (pySplit text).length) :
    0 < ((pySplit text).map String.length).sum := by
  have hne : (pySplit text).map String.length ≠ [] := by
    intro hcon
    have hlen : (pySplit text).length = 0 := by
      simpa using congrArg List.length hcon
    omega
  refine List.sum_pos _ ?_ hne
  intro n hn2
  obtain ⟨w, hw, rfl⟩ := List.mem_map.mp hn2
  exact mem_splitWordsAux_length_pos text.data [] w hw

theorem wordBoxesAux_length (char_width x1 y0 y1 confidence : ℚ) (source : String) :
    ∀ (ws : List String) (current_x : ℚ),
      (wordBoxesAux char_width x1 y0 y1 confidence source ws current_x).length
        = ws.length := by
  intro ws
  induction ws with
  | nil => intro cx; rfl
  | cons w tail ih =>
    intro cx
    cases tail with
    | nil => rfl
    | cons w2 ws2 =>
      simp only [wordBoxesAux, List.length_cons]
      rw [ih]
      simp

theorem wordBoxesAux_sum (char_width x1 y0 y1 confidence : ℚ) (source : String) :
    ∀ (ws : List String) (current_x : ℚ), ws ≠ [] →
      ((wordBoxesAux char_width x1 y0 y1 confidence source ws current_x).map
          regionWidth).sum
          + ((ws.length - 1 : ℕ) : ℚ) * (char_width * WORD_SPACING_THRESHOLD)
        = x1 - current_x := by
  intro ws
  induction ws with
  | nil => intro cx h; exact absurd rfl h
  | cons w tail ih =>
    intro cx _
    cases tail with
    | nil =>
      simp [wordBoxesAux, regionWidth, regionRight, regionLeft]
    | cons w2 ws2 =>
      have ihh := ih (cx + char_width * (w.length : ℚ)
          + char_width * WORD_SPACING_THRESHOLD) (by simp)
      simp only [wordBoxesAux, List.map_cons, List.sum_cons] at ihh ⊢
      have hlen1 : ((w :: w2 :: ws2).length - 1 : ℕ) = ws2.length + 1 := by
        simp
      have hlen2 : ((w2 :: ws2).length - 1 : ℕ) = ws2.length := by
        simp
      rw [hlen2] at ihh
      rw [hlen1]
      have hwid : regionWidth
          ⟨[(cx, y0), (cx + char_width * (w.length : ℚ), y0),
            (cx + char_width * (w.length : ℚ), y1), (cx, y1)], w, confidence,
            source, true⟩ = char_width * (w.length : ℚ) := by
        simp [regionWidth, regionRight, regionLeft, List.getD]
      rw [hwid]
      push_cast at ihh ⊢
      linarith

theorem wordBoxesAux_ne_nil (char_width x1 y0 y1 confidence : ℚ) (source : String)
    (ws : List String) (current_x : ℚ) (hne : ws ≠ []) :
    wordBoxesAux char_width x1 y0 y1 confidence source ws current_x ≠ [] := by
  intro hcon
  have := congrArg List.length hcon
  rw [wordBoxesAux_length] at this
  simp at this
  exact hne this

theorem getLast?_cons_of_ne_nil {α : Type} (a : α) (l : List α) (h : l ≠ []) :
    (a :: l).getLast? = l.getLast? := by
  cases l with
  | nil => exact absurd rfl h
  | cons b t => rfl

theorem wordBoxesAux_getLast (char_width x1 y0 y1 confidence : ℚ) (source : String) :
    ∀ (ws : List String) (current_x : ℚ), ws ≠ [] →
      ∃ r, (wordBoxesAux char_width x1 y0 y1 confidence source ws current_x).getLast?
          = some r ∧ regionRight r = x1 := by
  intro ws
  induction ws with
  | nil => intro cx h; exact absurd rfl h
  | cons w tail ih =>
    intro cx _
    cases tail with
    | nil =>
      refine ⟨_, rfl, ?_⟩
      simp [regionRight, List.getD]
    | cons w2 ws2 =>
      obtain ⟨r, h1, h2⟩ := ih (cx + char_width * (w.length : ℚ)
          + char_width * WORD_SPACING_THRESHOLD) (by simp)
      refine ⟨r, ?_, h2⟩
      simp only [wordBoxesAux]
      rw [getLast?_cons_of_ne_nil _ _
        (wordBoxesAux_ne_nil char_width x1 y0 y1 confidence source (w2 :: ws2) _ (by simp))]
      exact h1

/-- Claim C2: a line whose text splits into `n ≥ 2` words, over a polygon with
axis-aligned bounds of width `W = x1 - x0`, is split into exactly `n` regions
whose signed widths plus `n - 1` inter-word gaps of
`char_width * WORD_SPACING_THRESHOLD` (with `char_width = W / total_chars`)
sum exactly to `W`, and the last region's right edge is exactly `x1`. -/
theorem C2_word_split_tiles_width (bbox : List Point) (text : String)
    (conf : ℚ) (src : String)
    (hn : 2 ≤ (pySplit text).length) (hb : bbox ≠ []) :
    (split_line_box_into_words bbox text conf src).length = (pySplit text).length ∧
    ((split_line_box_into_words bbox text conf src).map regionWidth).sum
        + (((pySplit text).length - 1 : ℕ) : ℚ)
          * ((listMax (bbox.map Prod.fst) - listMin (bbox.map Prod.fst))
                / ((((pySplit text).map String.length).sum : ℕ) : ℚ)
              * WORD_SPACING_THRESHOLD)
      = listMax (bbox.map Prod.fst) - listMin (bbox.map Prod.fst) ∧
    ∃ r, (split_line_box_into_words bbox text conf src).getLast? = some r ∧
      regionRight r = listMax (bbox.map Prod.fst) := by
  have hpos : 0 < ((pySplit text).map String.length).sum :=
    pySplit_total_chars_pos text hn
  have htext : text ≠ "" := by
    intro hcon
    have he : pySplit "" = [] := by decide
    rw [hcon, he] at hn
    exact absurd hn (by norm_num)
  have hws : pySplit text ≠ [] := by
    intro hcon
    rw [hcon] at hn
    exact absurd hn (by norm_num)
  have hcond : ¬(text = "" ∨ bbox = []) := by
    push_neg
    exact ⟨htext, hb⟩
  have hlen : ¬((pySplit text).length ≤ 1) := by omega
  simp only [split_line_box_into_words, if_neg hcond, if_neg hlen, if_pos hpos]
  refine ⟨?_, ?_, ?_⟩
  · rw [wordBoxesAux_length]
  · have hsum := wordBoxesAux_sum
      ((listMax (bbox.map Prod.fst) - listMin (bbox.map Prod.fst))
        / ((((pySplit text).map String.length).sum : ℕ) : ℚ))
      (listMax (bbox.map Prod.fst)) (listMin (bbox.map Prod.snd))
      (listMax (bbox.map Prod.snd)) conf src (pySplit text)
      (listMin (bbox.map Prod.fst)) hws
    exact hsum
  · exact wordBoxesAux_getLast _ _ _ _ conf src (pySplit text)
      (listMin (bbox.map Prod.fst)) hws

/-- Witness for C2 at the line `"ab cd"` over the box `(0,0)`–`(10,2)`. -/
theorem C2_word_split_tiles_width_witness :
    (split_line_box_into_words [(0, 0), (10, 0), (10, 2), (0, 2)] "ab cd" 1 "ocr").length
        = (pySplit "ab cd").length ∧
    ((split_line_box_into_words [(0, 0), (10, 0), (10, 2), (0, 2)] "ab cd" 1 "ocr").map
          regionWidth).sum
        + (((pySplit "ab cd").length - 1 : ℕ) : ℚ)
          * ((listMax ((([(0, 0), (10, 0), (10, 2), (0, 2)]) : List Point).map Prod.fst)
                - listMin ((([(0, 0), (10, 0), (10, 2), (0, 2)]) : List Point).map Prod.fst))
                / ((((pySplit "ab cd").map String.length).sum : ℕ) : ℚ)
              * WORD_SPACING_THRESHOLD)
      = listMax ((([(0, 0), (10, 0), (10, 2), (0, 2)]) : List Point).map Prod.fst)
        - listMin ((([(0, 0), (10, 0), (10, 2), (0, 2)]) : List Point).map Prod.fst) ∧
    ∃ r, (split_line_box_into_words [(0, 0), (10, 0), (10, 2), (0, 2)]
          "ab cd" 1 "ocr").getLast? = some r ∧
      regionRight r
        = listMax ((([(0, 0), (10, 0), (10, 2), (0, 2)]) : List Point).map Prod.fst) :=
  C2_word_split_tiles_width [(0, 0), (10, 0), (10, 2), (0, 2)] "ab cd" 1 "ocr"
    (by decide) (by decide)

theorem mem_wordBoxesAux_is_word (char_width x1 y0 y1 confidence : ℚ) (source : String) :
    ∀ (ws : List String) (current_x : ℚ) (r : Region),
      r ∈ wordBoxesAux char_width x1 y0 y1 confidence source ws current_x →
      r.is_word = true := by
  intro ws
  induction ws with
  | nil => intro cx r hr; cases hr
  | cons w tail ih =>
    intro cx r hr
    cases tail with
    | nil =>
      rw [List.mem_singleton.mp hr]
    | cons w2 ws2 =>
      simp only [wordBoxesAux] at hr
      rcases List.mem_cons.mp hr with rfl | hr
      · rfl
      · exact ih _ r hr

theorem splitRegion_of_mem (r o : Region) (ho : o ∈ splitRegion r) :
    splitRegion o = [o] := by
  unfold splitRegion at ho
  by_cases hw : r.is_word = true
  · rw [if_pos hw] at ho
    rw [List.mem_singleton.mp ho]
    unfold splitRegion
    rw [if_pos hw]
  · rw [if_neg hw] at ho
    simp only [split_line_box_into_words] at ho
    by_cases hc : (r.text = "" ∨ r.bbox = [])
    · rw [if_pos hc] at ho
      cases ho
    · rw [if_neg hc] at ho
      by_cases hlen : (pySplit r.text).length ≤ 1
      · rw [if_pos hlen] at ho
        rw [List.mem_singleton.mp ho]
        unfold splitRegion
        rw [if_neg (by simp)]
        simp only [split_line_box_into_words]
        rw [if_neg hc, if_pos hlen]
      · rw [if_neg hlen] at ho
        have hword := mem_wordBoxesAux_is_word _ _ _ _ _ _ _ _ o ho
        unfold splitRegion
        rw [if_pos hword]

theorem applyPageRegions_append (a b : List Region) :
    applyPageRegions (a ++ b) = applyPageRegions a ++ applyPageRegions b := by
  induction a with
  | nil => rfl
  | cons r rs ih =>
    show splitRegion r ++ applyPageRegions (rs ++ b)
        = splitRegion r ++ applyPageRegions rs ++ applyPageRegions b
    rw [ih, List.append_assoc]

theorem mem_applyPageRegions (l : List Region) (o : Region)
    (ho : o ∈ applyPageRegions l) : ∃ r ∈ l, o ∈ splitRegion r := by
  induction l with
  | nil => cases ho
  | cons r rs ih =>
    simp only [applyPageRegions] at ho
    rcases List.mem_append.mp ho with ho | ho
    · exact ⟨r, List.mem_cons_self r rs, ho⟩
    · obtain ⟨s, hs, hos⟩ := ih ho
      exact ⟨s, List.mem_cons_of_mem r hs, hos⟩

theorem applyPageRegions_fixed (l : List Region)
    (hl : ∀ x ∈ l, splitRegion x = [x]) : applyPageRegions l = l := by
  induction l with
  | nil => rfl
  | cons r rs ih =>
    simp only [applyPageRegions]
    rw [hl r (List.mem_cons_self r rs), ih (fun x hx => hl x (List.mem_cons_of_mem r hx))]
    rfl

theorem applyPageRegions_idem (l : List Region) :
    applyPageRegions (applyPageRegions l) = applyPageRegions l := by
  apply applyPageRegions_fixed
  intro x hx
  obtain ⟨r, _, hxr⟩ := mem_applyPageRegions l x hx
  exact splitRegion_of_mem r x hxr

/-- Claim C9: `apply_word_splitting` is idempotent on the per-page
`text_regions` lists: applying it twice yields the same `text_regions` for
every page as applying it once. -/
theorem C9_word_splitting_idempotent (d : ResultsData) :
    (apply_word_splitting (apply_word_splitting d)).pages.map PageData.text_regions
      = (apply_word_splitting d).pages.map PageData.text_regions := by
  have hsw : ¬(SPLIT_BY_WORDS = false) := by decide
  rw [apply_word_splitting, if_neg hsw, apply_word_splitting, if_neg hsw]
  simp only [List.map_map]
  congr 1
  funext pd
  exact applyPageRegions_idem pd.text_regions

/-- Claim C10: a region not marked `is_word` with empty text or missing bbox
is removed entirely by word splitting (its split is the empty list), so a
page's region count can strictly shrink. -/
theorem C10_empty_region_removed (r : Region) (l1 l2 : List Region)
    (hw : r.is_word = false) (he : r.text = "" ∨ r.bbox = []) :
    splitRegion r = [] ∧
    applyPageRegions (l1 ++ r :: l2) = applyPageRegions (l1 ++ l2) ∧
    (applyPageRegions [Region.mk [] "" 1 "ocr" false]).length
      < ([Region.mk [] "" 1 "ocr" false] : List Region).length := by
  have hs : splitRegion r = [] := by
    unfold splitRegion
    rw [if_neg (by simp [hw])]
    simp only [split_line_box_into_words]
    rw [if_pos he]
  refine ⟨hs, ?_, ?_⟩
  · rw [applyPageRegions_append, applyPageRegions_append]
    simp only [applyPageRegions, hs, List.nil_append]
  · decide

/-- Witness for C10 at a concrete empty-text region. -/
theorem C10_empty_region_removed_witness :
    splitRegion (Region.mk [] "" 1 "ocr" false) = [] ∧
    applyPageRegions ([] ++ Region.mk [] "" 1 "ocr" false :: [])
      = applyPageRegions ([] ++ []) ∧
    (applyPageRegions [Region.mk [] "" 1 "ocr" false]).length
      < ([Region.mk [] "" 1 "ocr" false] : List Region).length :=
  C10_empty_region_removed (Region.mk [] "" 1 "ocr" false) [] [] rfl (Or.inl rfl)

end GlyphAtlas
